import Mathlib

/-!
Shallow embedding of the PetaLinux configuration utilities.

The Python sources embedded here are `scripts/libs/common_utils.py`
(the ConfigStore layer: `update_config_value`, `get_config_value`,
`add_offsets`) and `libs/plnx_utils.py` (the hardware-flow layer:
`is_hwflow_sdt`, `petalinux_version_check`, `get_soc_variant`,
`get_xilinx_arch`, and the flash-partition loop of
`gen_sysconf_dtsi_file`).

Modelling conventions:
- A Python string is a `List Char` (`PyStr`).
- A config file on disk is a `List PyStr`: its lines without the trailing
  newline character.  An absent file reads as `[]`, exactly as the Python
  code treats it (`if os.path.exists` guarding `readlines`).  The model
  assumes line-valued inputs contain no newline character and that the
  file ends with a newline, which is how these KConfig-style files are
  produced by the writer itself.
- `re.search(pat, line)` with a pattern built from a macro name is
  modelled as substring containment, which is its meaning whenever the
  macro contains no regex metacharacters (the macros used by the tool are
  plain `[A-Z0-9_]+` identifiers).
- Fallible Python code (uncaught exceptions) is modelled with `Except`:
  `petalinux_version_check` can hit a `NameError`, `add_offsets` a
  `ValueError`, asterisk-mode `get_config_value` an `IndexError`.
-/

deriving instance DecidableEq for Except

/-- Python strings are modelled as lists of characters. -/
abbrev PyStr := List Char

/-- Coerce a Lean string literal into the character-list model. -/
def strLit (s : String) : PyStr := s.toList

/-- The characters removed by Python `str.strip()` with no arguments
(ASCII whitespace; the exotic Unicode spaces never occur in these files). -/
def isPySpace (c : Char) : Bool :=
  c == ' ' || c == '\t' || c == '\n' || c == '\r' || c == '\x0b' || c == '\x0c'

/-- Python `str.strip()`: drop leading and trailing whitespace. -/
def pyStrip (s : PyStr) : PyStr :=
  (((s.dropWhile isPySpace).reverse).dropWhile isPySpace).reverse

/-- Boolean test that `p` occurs at the start of `s`
(Python `str.startswith`). -/
def startsWithB : PyStr → PyStr → Bool
  | [], _ => true
  | _ :: _, [] => false
  | a :: p, b :: s => a == b && startsWithB p s

/-- Boolean test that `p` occurs somewhere inside `s`: the meaning of
`re.search` for a pattern with no regex metacharacters. -/
def infixB : PyStr → PyStr → Bool
  | p, [] => startsWithB p []
  | p, s@(_ :: t) => startsWithB p s || infixB p t

/-- Boolean test that `p` occurs at the end of `s` (Python `str.endswith`). -/
def endsWithB (p s : PyStr) : Bool := startsWithB p.reverse s.reverse

/-- Recursive worker for Python `str.replace` with a nonempty pattern:
scan left to right, replacing non-overlapping occurrences.  The first
argument counts characters still to be skipped over after a replacement
(the remainder of a matched occurrence). -/
def pyReplaceGo (pat new : PyStr) : Nat → PyStr → PyStr
  | _, [] => []
  | n + 1, _ :: t => pyReplaceGo pat new n t
  | 0, c :: t =>
    if startsWithB pat (c :: t) then new ++ pyReplaceGo pat new (pat.length - 1) t
    else c :: pyReplaceGo pat new 0 t

/-- Python `s.replace(pat, new)`.  For the empty pattern this model returns
`s` unchanged; Python would interleave `new` everywhere, but every pattern
passed by the embedded code (`macro + '='`, a quote character, a macro
name, an `end_macro` marker) is nonempty at the call sites we verify. -/
def pyReplace (pat new s : PyStr) : PyStr :=
  match pat with
  | [] => s
  | _ :: _ => pyReplaceGo pat new 0 s

/-- Python `str.lower()` restricted to ASCII, which covers every value
compared by the embedded code. -/
def pyLower (s : PyStr) : PyStr := s.map Char.toLower

/-- The last character of a string, if any. -/
def lastChar (s : PyStr) : Option Char := s.reverse.head?

/-- Python `line.split('=')`: split on every occurrence of `'='`;
the empty string splits to `[""]`. -/
def splitOnEq : PyStr → List PyStr
  | [] => [[]]
  | c :: t =>
    match splitOnEq t with
    | [] => [[c]]
    | a :: rest => if c == '=' then [] :: a :: rest else (c :: a) :: rest

/-- `get_config_value` in `bool` mode (common_utils.py lines 271-276):
first line whose stripped form starts with `macro=`; the value is the
stripped line with every occurrence of `macro=` removed and then every
double quote removed.  Returns the empty string when nothing matches. -/
def getBool (m : PyStr) : List PyStr → PyStr
  | [] => []
  | l :: ls =>
    let s := pyStrip l
    if startsWithB (m ++ ['=']) s then
      pyReplace ['\"'] [] (pyReplace (m ++ ['=']) [] s)
    else getBool m ls

/-- `get_config_value` in `choice` mode (lines 277-282): first stripped
line that starts with `macro` and ends with `end_macro`; the value is the
line with all occurrences of `macro` and of `end_macro` removed. -/
def getChoice (m endm : PyStr) : List PyStr → PyStr
  | [] => []
  | l :: ls =>
    let s := pyStrip l
    if startsWithB m s && endsWithB endm s then
      pyReplace endm [] (pyReplace m [] s)
    else getChoice m endm ls

/-- `get_config_value` in `choicelist` mode (lines 283-287): like `choice`
but accumulates `' ' + value` for every matching line instead of stopping. -/
def getChoiceList (m endm : PyStr) : List PyStr → PyStr
  | [] => []
  | l :: ls =>
    let s := pyStrip l
    if startsWithB m s && endsWithB endm s then
      (' ' :: pyReplace endm [] (pyReplace m [] s)) ++ getChoiceList m endm ls
    else getChoiceList m endm ls

/-- `get_config_value` in `asterisk` mode (lines 288-293): first stripped
line that starts with `macro` and matches the `end_macro` pattern; the
value is `line.split('=')[1]` with double quotes removed.  A matching line
without `'='` raises IndexError, modelled as `Except.error`. -/
def getAsterisk (m endm : PyStr) : List PyStr → Except Unit PyStr
  | [] => .ok []
  | l :: ls =>
    let s := pyStrip l
    if startsWithB m s && infixB endm s then
      match (splitOnEq s).get? 1 with
      | some seg => .ok (pyReplace ['\"'] [] seg)
      | none => .error ()
    else getAsterisk m endm ls

/-- `get_config_value(macro, filename, Type='bool', end_macro='=y')`
(common_utils.py lines 263-294).  `fileLines` is the file content, `[]`
when the file is absent or empty.  An unrecognized `Type` leaves the
initial `value = ''` untouched.  The Python parameter named `Type` is
`ty` here because `Type` is reserved in Lean. -/
def get_config_value (m : PyStr) (fileLines : List PyStr) (ty : String)
    (endm : PyStr) : Except Unit PyStr :=
  if ty = "bool" then .ok (getBool m fileLines)
  else if ty = "choice" then .ok (getChoice m endm fileLines)
  else if ty = "choicelist" then .ok (getChoiceList m endm fileLines)
  else if ty = "asterisk" then getAsterisk m endm fileLines
  else .ok []

/-- The `# MACRO is not set` tombstone line. -/
def tombstone (m : PyStr) : PyStr := strLit "# " ++ m ++ strLit " is not set"

/-- The line `update_config_value` appends: the tombstone for the value
`disable`, otherwise `macro=value`. -/
def setLine (m v : PyStr) : PyStr :=
  if v = strLit "disable" then tombstone m else m ++ '=' :: v

/-- The removal test of `update_config_value` (line 253):
`re.search('# %s is not set' % macro, line) or re.search('%s=' % macro, line)`,
i.e. the line contains the tombstone or contains `macro=` as a substring. -/
def matchesRemoval (m l : PyStr) : Bool :=
  infixB (tombstone m) l || infixB (m ++ ['=']) l

/-- `update_config_value(macro, value, filename)` (common_utils.py lines
243-260): rewrite the file, dropping every line that matches the removal
test, then append the new line. -/
def update_config_value (m v : PyStr) : List PyStr → List PyStr
  | [] => [setLine m v]
  | l :: ls =>
    if matchesRemoval m l then update_config_value m v ls
    else l :: update_config_value m v ls

/-- `is_hwflow_sdt(proot)` (plnx_utils.py lines 27-33): read `HDF_EXT`
from the project metadata file (default `bool` mode of
`get_config_value`), and return `sdt` when it reads `dts`; any other
stored value is returned unchanged. -/
def is_hwflow_sdt (metaFile : List PyStr) : PyStr :=
  let hdf_ext := getBool (strLit "HDF_EXT") metaFile
  if hdf_ext = strLit "dts" then strLit "sdt" else hdf_ext

/-- `get_soc_variant(proot)` (plnx_utils.py lines 116-120): read the SoC
variant via a `choice`-mode lookup ending in `=y`, lower-cased.  The macro
name comes from `plnx_vars` (not part of this repository's sources), so it
is a parameter `socMacro`. -/
def get_soc_variant (socMacro : PyStr) (sysconf : List PyStr) : PyStr :=
  pyLower (getChoice socMacro (strLit "=y") sysconf)

/-- `get_xilinx_arch(proot)` (plnx_utils.py lines 130-138): read the
Xilinx architecture via a `choice`-mode lookup, lower-cased; when it is
`versal` and the SoC variant reads `versalnet`, report `versal-net`.
The two macro names live in `plnx_vars` and are parameters here. -/
def get_xilinx_arch (archMacro socMacro : PyStr) (sysconf : List PyStr) : PyStr :=
  let xa := pyLower (getChoice archMacro (strLit "=y") sysconf)
  if xa = strLit "versal" then
    if get_soc_variant socMacro sysconf = strLit "versalnet" then strLit "versal-net"
    else xa
  else xa

/-- The user answers accepted by `petalinux_version_check`
(plnx_utils.py line 107). -/
def yesForms : List PyStr :=
  [strLit "y", strLit "Y", strLit "yes", strLit "Yes", strLit "YEs", strLit "YES"]

/-- `petalinux_version_check(proot)` (plnx_utils.py lines 88-113).
Parameters stand for the ambient state: `verMacro` is
`plnx_vars.PetaLinux_Ver_Str` (the `plnx_vars` module is not among the
sources), `currentVer` is `plnx_vars.PetaLinux_Ver`, `envIgnore` the value
of the `PLNX_IGNORE_VER_CHK` environment variable (empty when unset),
`userInput` what `input()` would return, and `metaFile` the metadata file
content (`CreateFile` makes an absent file empty, i.e. `[]`).  The result
pairs the returned boolean with the resulting file content.  On the
accepted-answer path the source executes
`update_config_value(plnx_vars.PetaLinux_Ver_Str, petalinux_ver, metadata_file)`
where `petalinux_ver` and `metadata_file` are names defined nowhere in
scope, so Python raises `NameError`: that path is `Except.error`. -/
def petalinux_version_check (verMacro currentVer envIgnore userInput : PyStr)
    (metaFile : List PyStr) : Except Unit (Bool × List PyStr) :=
  let projVer := getBool verMacro metaFile
  if projVer = [] then
    .ok (true, update_config_value verMacro currentVer metaFile)
  else if currentVer ≠ projVer then
    if envIgnore ≠ [] then .ok (true, metaFile)
    else if userInput ∈ yesForms then .error ()
    else .ok (false, metaFile)
  else .ok (true, metaFile)

/-- The value of one hexadecimal digit character, if it is one. -/
def hexDigitVal (c : Char) : Option Nat :=
  if '0' ≤ c ∧ c ≤ '9' then some (c.toNat - '0'.toNat)
  else if 'a' ≤ c ∧ c ≤ 'f' then some (c.toNat - 'a'.toNat + 10)
  else if 'A' ≤ c ∧ c ≤ 'F' then some (c.toNat - 'A'.toNat + 10)
  else none

/-- The value of a nonempty string of hexadecimal digits. -/
def hexDigitsVal : PyStr → Option Nat
  | [] => none
  | l =>
    l.foldl
      (fun acc c =>
        match acc, hexDigitVal c with
        | some a, some d => some (16 * a + d)
        | _, _ => none)
      (some 0)

/-- Strip an optional `0x` / `0X` prefix and read the digits. -/
def hexBody : PyStr → Option Nat
  | '0' :: 'x' :: r => hexDigitsVal r
  | '0' :: 'X' :: r => hexDigitsVal r
  | r => hexDigitsVal r

/-- Python `int(s, base=16)`: strip whitespace, optional sign, optional
`0x` prefix, hexadecimal digits; `none` models the `ValueError` raised on
anything else.  (Python also allows single underscores between digits;
the embedded code never writes them.) -/
def pyIntHex (s : PyStr) : Option Int :=
  match pyStrip s with
  | '+' :: r => (hexBody r).map Int.ofNat
  | '-' :: r => (hexBody r).map (fun n => -(n : Int))
  | r => (hexBody r).map Int.ofNat

/-- Python `hex(i)`: `0x` plus lowercase hexadecimal digits, with a
leading minus sign for negative values. -/
def toHexPy (i : Int) : PyStr :=
  if i < 0 then '-' :: '0' :: 'x' :: Nat.toDigits 16 i.natAbs
  else '0' :: 'x' :: Nat.toDigits 16 i.natAbs

/-- `add_offsets(start, end)` (common_utils.py lines 81-84):
`hex(int(start, 16) + int(end, 16))`; `Except.error` models the
`ValueError` from an unparsable operand. -/
def add_offsets (s e : PyStr) : Except Unit PyStr :=
  match pyIntHex s, pyIntHex e with
  | some a, some b => .ok (toHexPy (a + b))
  | _, _ => .error ()

/-- One flash partition node emitted by `gen_sysconf_dtsi_file`: the slot
number, name, start offset and size interpolated into
`plnx_vars.FlashPartNode`. -/
structure PartNode where
  num : Nat
  name : PyStr
  offset : PyStr
  size : PyStr
deriving DecidableEq

/-- The partition-slot loop of `gen_sysconf_dtsi_file` (plnx_utils.py
lines 241-256), one constructor-step per `for num in range(0, 19)`
iteration, with `fuel` the number of slots still allowed (initially 19).
Each iteration first computes `add_offsets(prev_part_offset,
prev_part_size)`, then reads the slot's name and size macros, emits a
node when the name is nonempty and stops at the first empty name. -/
def partLoop (nameOf sizeOf : Nat → PyStr) :
    Nat → Nat → PyStr → PyStr → Except Unit (List PartNode)
  | _, 0, _, _ => .ok []
  | num, fuel + 1, po, ps =>
    match add_offsets po ps with
    | .error e => .error e
    | .ok off =>
      let name := nameOf num
      let size := sizeOf num
      if name = [] then .ok []
      else
        match partLoop nameOf sizeOf (num + 1) fuel off size with
        | .ok rest => .ok (⟨num, name, off, size⟩ :: rest)
        | .error e => .error e

/-- The macro name `'%s%s%s' % (prefix, num, suffix)` used for partition
slot lookups; the prefix and suffixes come from `plnx_vars.FlashConfs`. -/
def partMacro (pfx : PyStr) (n : Nat) (sfx : PyStr) : PyStr :=
  pfx ++ (Nat.repr n).toList ++ sfx

/-- What the flash block of `gen_sysconf_dtsi_file` appends to the
sysconf dtsi file: a flash header fragment, one node per configured
partition slot, and the closing `FlashendSymbols` fragment. -/
inductive FlashOut where
  | header (ipname : PyStr)
  | node (p : PartNode)
  | endSym
deriving DecidableEq

/-- The flash section of `gen_sysconf_dtsi_file` (plnx_utils.py lines
233-258): read `flash_ipname` (a default-mode `get_config_value` on a
`plnx_vars.FlashIpConf` macro, parameterized as `flashMacro`); when it is
nonempty, emit the header, run the 19-slot partition loop starting from
offset `0x0` / size `0x0`, and emit the closing fragment. -/
def gen_flash_section (flashMacro pfx nsfx ssfx : PyStr) (conf : List PyStr) :
    Except Unit (List FlashOut) :=
  let ip := getBool flashMacro conf
  if ip = [] then .ok []
  else
    match partLoop (fun n => getBool (partMacro pfx n nsfx) conf)
        (fun n => getBool (partMacro pfx n ssfx) conf) 0 19
        (strLit "0x0") (strLit "0x0") with
    | .ok ns => .ok (FlashOut.header ip :: ns.map FlashOut.node ++ [FlashOut.endSym])
    | .error e => .error e

/-- Whether a line matches the macro under a given `get_config_value`
mode: the per-mode line tests of common_utils.py lines 271-293. -/
def modeMatches (ty : String) (m endm l : PyStr) : Bool :=
  if ty = "bool" then startsWithB (m ++ ['=']) (pyStrip l)
  else if ty = "choice" then startsWithB m (pyStrip l) && endsWithB endm (pyStrip l)
  else if ty = "choicelist" then startsWithB m (pyStrip l) && endsWithB endm (pyStrip l)
  else if ty = "asterisk" then startsWithB m (pyStrip l) && infixB endm (pyStrip l)
  else false

/-- A concrete system configuration: a flash device and three contiguous
partition slots sized 0x1000, 0x2000 and 0x100. -/
def conf9 : List PyStr :=
  [strLit "FLASH=spi0", strLit "P0NAME=boot", strLit "P0SIZE=0x1000",
   strLit "P1NAME=kernel", strLit "P1SIZE=0x2000",
   strLit "P2NAME=rootfs", strLit "P2SIZE=0x100"]

/-- The flash section generated from `conf9`: partition 2 starts at
0x1000 + 0x2000 = 0x3000. -/
def outs9 : List FlashOut :=
  [FlashOut.header (strLit "spi0"),
   FlashOut.node ⟨0, strLit "boot", strLit "0x0", strLit "0x1000"⟩,
   FlashOut.node ⟨1, strLit "kernel", strLit "0x1000", strLit "0x2000"⟩,
   FlashOut.node ⟨2, strLit "rootfs", strLit "0x3000", strLit "0x100"⟩,
   FlashOut.endSym]

example : is_hwflow_sdt [strLit "HDF_EXT=dts"] = strLit "sdt" := by decide
example : is_hwflow_sdt [strLit "HDF_EXT=foo"] = strLit "foo" := by decide
example : update_config_value (strLit "FOO") (strLit "bar") [strLit "FOO=1", strLit "X=2"]
    = [strLit "X=2", strLit "FOO=bar"] := by decide
example : getBool (strLit "FOO") [strLit "FOO=\"bar\""] = strLit "bar" := by decide
example : getAsterisk (strLit "A") (strLit "IP") [strLit "A_IP=\"1.2\""]
    = .ok (strLit "1.2") := by decide
example : getChoice (strLit "ARCH_") (strLit "=y") [strLit "ARCH_versal-net=y"]
    = strLit "versal-net" := by decide
example : add_offsets (strLit "0x1000") (strLit "0x2000") = .ok (strLit "0x3000") := by decide
example : add_offsets (strLit "0x0") (strLit "0x0") = .ok (strLit "0x0") := by decide
example : add_offsets (strLit "0x0") (strLit "") = .error () := by decide
example : gen_flash_section (strLit "FLASH") (strLit "P") (strLit "NAME") (strLit "SIZE") conf9
    = .ok outs9 := by decide
example : petalinux_version_check (strLit "PETALINUX_VER") (strLit "2023.2") []
    (strLit "y") [strLit "PETALINUX_VER=2022.1"] = .error () := by decide
example : petalinux_version_check (strLit "PETALINUX_VER") (strLit "2023.2")
    (strLit "1") (strLit "n") [strLit "PETALINUX_VER=2022.1"]
    = .ok (true, [strLit "PETALINUX_VER=2022.1"]) := by decide

/-! Helper lemmas about the string model. -/

theorem startsWithB_iff (p s : PyStr) : startsWithB p s = true ↔ ∃ t, p ++ t = s := by
  induction p generalizing s with
  | nil =>
    simp only [startsWithB, List.nil_append, true_iff]
    exact ⟨s, rfl⟩
  | cons a p ih =>
    cases s with
    | nil => simp [startsWithB]
    | cons b s =>
      simp only [startsWithB, Bool.and_eq_true, beq_iff_eq, ih, List.cons_append,
        List.cons.injEq]
      constructor
      · rintro ⟨rfl, t, rfl⟩
        exact ⟨t, rfl, rfl⟩
      · rintro ⟨t, rfl, rfl⟩
        exact ⟨rfl, t, rfl⟩

theorem startsWithB_self (p t : PyStr) : startsWithB p (p ++ t) = true :=
  (startsWithB_iff _ _).mpr ⟨t, rfl⟩

theorem infixB_iff (p s : PyStr) : infixB p s = true ↔ ∃ x y, x ++ p ++ y = s := by
  induction s with
  | nil =>
    simp only [infixB, startsWithB_iff]
    constructor
    · rintro ⟨t, ht⟩
      exact ⟨[], t, by simp [ht]⟩
    · rintro ⟨x, y, h⟩
      rcases List.append_eq_nil.mp h with ⟨h1, rfl⟩
      rcases List.append_eq_nil.mp h1 with ⟨rfl, rfl⟩
      exact ⟨[], rfl⟩
  | cons b t ih =>
    simp only [infixB, Bool.or_eq_true, startsWithB_iff, ih]
    constructor
    · rintro (⟨u, hu⟩ | ⟨x, y, hxy⟩)
      · exact ⟨[], u, by simp [hu]⟩
      · exact ⟨b :: x, y, by simp [hxy]⟩
    · rintro ⟨x, y, hxy⟩
      cases x with
      | nil => exact Or.inl ⟨y, by simpa using hxy⟩
      | cons c x =>
        simp only [List.cons_append, List.cons.injEq] at hxy
        exact Or.inr ⟨x, y, hxy.2⟩

theorem dropWhile_decomp (p : Char → Bool) (l : PyStr) : ∃ u, u ++ l.dropWhile p = l := by
  induction l with
  | nil => exact ⟨[], rfl⟩
  | cons a t ih =>
    by_cases h : p a
    · obtain ⟨u, hu⟩ := ih
      exact ⟨a :: u, by simp [List.dropWhile_cons, h, hu]⟩
    · exact ⟨[], by simp [List.dropWhile_cons, h]⟩

theorem dropWhile_eq_self (p : Char → Bool) (l : PyStr)
    (h : ∀ c, l.head? = some c → p c = false) : l.dropWhile p = l := by
  cases l with
  | nil => rfl
  | cons a t => simp [List.dropWhile_cons, h a rfl]

theorem pyStrip_eq_self (l : PyStr) (h1 : ∀ c, l.head? = some c → isPySpace c = false)
    (h2 : ∀ c, lastChar l = some c → isPySpace c = false) : pyStrip l = l := by
  unfold pyStrip
  rw [dropWhile_eq_self _ _ h1, dropWhile_eq_self _ _ (fun c hc => h2 c hc),
    List.reverse_reverse]

theorem pyStrip_decomp (l : PyStr) : ∃ x y, x ++ pyStrip l ++ y = l := by
  obtain ⟨u, hu⟩ := dropWhile_decomp isPySpace l
  obtain ⟨w, hw⟩ := dropWhile_decomp isPySpace (l.dropWhile isPySpace).reverse
  refine ⟨u, w.reverse, ?_⟩
  have h3 : pyStrip l ++ w.reverse = l.dropWhile isPySpace := by
    have h4 := congrArg List.reverse hw
    simpa [pyStrip, List.reverse_append] using h4
  calc u ++ pyStrip l ++ w.reverse
      = u ++ (pyStrip l ++ w.reverse) := by rw [List.append_assoc]
    _ = u ++ l.dropWhile isPySpace := by rw [h3]
    _ = l := hu

theorem lastChar_append (x y : PyStr) (hy : y ≠ []) : lastChar (x ++ y) = lastChar y := by
  unfold lastChar
  rw [List.reverse_append]
  cases hyr : y.reverse with
  | nil =>
    have h : y = [] := by simpa using congrArg List.reverse hyr
    exact absurd h hy
  | cons b r => simp

/-! Facts about the tombstone line and the removal test. -/

theorem tombstone_head (m : PyStr) : (tombstone m).head? = some '#' := rfl

theorem tombstone_lastChar (m : PyStr) : lastChar (tombstone m) = some 't' := by
  unfold tombstone
  rw [lastChar_append _ _ (by decide)]
  decide

theorem pyStrip_tombstone (m : PyStr) : pyStrip (tombstone m) = tombstone m := by
  refine pyStrip_eq_self _ ?_ ?_
  · intro c hc
    rw [tombstone_head] at hc
    cases hc
    decide
  · intro c hc
    rw [tombstone_lastChar] at hc
    cases hc
    decide

theorem count_eq_tombstone (m : PyStr) :
    List.count '=' (tombstone m) = List.count '=' m := by
  unfold tombstone
  rw [List.count_append, List.count_append]
  have h1 : List.count '=' (strLit "# ") = 0 := by decide
  have h2 : List.count '=' (strLit " is not set") = 0 := by decide
  omega

theorem startsWithB_eqmark_tombstone (m : PyStr) :
    startsWithB (m ++ ['=']) (tombstone m) = false := by
  cases hc : startsWithB (m ++ ['=']) (tombstone m)
  · rfl
  · obtain ⟨t, ht⟩ := (startsWithB_iff _ _).mp hc
    have h := congrArg (List.count '=') ht
    rw [List.count_append, List.count_append, count_eq_tombstone] at h
    have h1 : List.count '=' ['='] = 1 := by decide
    omega

theorem infixB_eqmark_tombstone (m : PyStr) :
    infixB (m ++ ['=']) (tombstone m) = false := by
  cases hc : infixB (m ++ ['=']) (tombstone m)
  · rfl
  · obtain ⟨x, y, hxy⟩ := (infixB_iff _ _).mp hc
    have h := congrArg (List.count '=') hxy
    rw [List.count_append, List.count_append, List.count_append,
      count_eq_tombstone] at h
    have h1 : List.count '=' ['='] = 1 := by decide
    omega

theorem startsWithB_strip_infixB (pat l : PyStr)
    (h : startsWithB pat (pyStrip l) = true) : infixB pat l = true := by
  obtain ⟨t, ht⟩ := (startsWithB_iff _ _).mp h
  obtain ⟨x, y, hxy⟩ := pyStrip_decomp l
  rw [infixB_iff]
  refine ⟨x, t ++ y, ?_⟩
  rw [← hxy, ← ht]
  simp [List.append_assoc]

/-! The closed form of update_config_value and its consequences. -/

theorem update_filter_form (m v : PyStr) (f : List PyStr) :
    update_config_value m v f
      = f.filter (fun l => !matchesRemoval m l) ++ [setLine m v] := by
  induction f with
  | nil => rfl
  | cons l f ih =>
    by_cases h : matchesRemoval m l = true
    · simp [update_config_value, h, ih, List.filter_cons]
    · simp only [Bool.not_eq_true] at h
      simp [update_config_value, h, ih, List.filter_cons]

theorem matchesRemoval_setLine (m v : PyStr) : matchesRemoval m (setLine m v) = true := by
  unfold setLine matchesRemoval
  by_cases hv : v = strLit "disable"
  · rw [if_pos hv, Bool.or_eq_true]
    exact Or.inl ((infixB_iff _ _).mpr ⟨[], [], by simp⟩)
  · rw [if_neg hv, Bool.or_eq_true]
    exact Or.inr ((infixB_iff _ _).mpr ⟨[], v, by simp⟩)

theorem getBool_append_skip (m : PyStr) (A B : List PyStr)
    (h : ∀ l ∈ A, infixB (m ++ ['=']) l = false) :
    getBool m (A ++ B) = getBool m B := by
  induction A with
  | nil => rfl
  | cons l A ih =>
    have hl : startsWithB (m ++ ['=']) (pyStrip l) = false := by
      cases hc : startsWithB (m ++ ['=']) (pyStrip l)
      · rfl
      · have h2 := startsWithB_strip_infixB _ _ hc
        rw [h l (List.mem_cons_self _ _)] at h2
        cases h2
    rw [List.cons_append]
    simp only [getBool, hl]
    exact ih (fun l hl => h l (List.mem_cons_of_mem _ hl))

theorem pyReplaceGo_skip (pat new : PyStr) (xs rest : PyStr) :
    pyReplaceGo pat new xs.length (xs ++ rest) = pyReplaceGo pat new 0 rest := by
  induction xs with
  | nil => rfl
  | cons x xs ih =>
    simpa only [List.length_cons, List.cons_append, pyReplaceGo] using ih

theorem pyReplace_cancel (pat v : PyStr) (hp : pat ≠ []) :
    pyReplace pat [] (pat ++ v) = pyReplace pat [] v := by
  cases pat with
  | nil => exact absurd rfl hp
  | cons c p =>
    have hs : startsWithB (c :: p) (c :: (p ++ v)) = true := startsWithB_self (c :: p) v
    show pyReplaceGo (c :: p) [] 0 ((c :: p) ++ v) = pyReplaceGo (c :: p) [] 0 v
    simp only [List.cons_append, pyReplaceGo, List.append_eq, hs, if_true,
      List.nil_append, List.length_cons, Nat.add_sub_cancel]
    exact pyReplaceGo_skip (c :: p) [] p v

theorem pyStrip_setline (m v : PyStr) (hm : m ≠ [])
    (hmh : ∀ c, m.head? = some c → isPySpace c = false)
    (hvt : ∀ c, lastChar v = some c → isPySpace c = false) :
    pyStrip (m ++ '=' :: v) = m ++ '=' :: v := by
  refine pyStrip_eq_self _ ?_ ?_
  · intro c hc
    cases m with
    | nil => exact absurd rfl hm
    | cons a t =>
      rw [List.cons_append, List.head?_cons] at hc
      cases hc
      exact hmh _ rfl
  · intro c hc
    rw [lastChar_append m ('=' :: v) (by simp)] at hc
    cases v with
    | nil =>
      have h0 : lastChar ['='] = some '=' := rfl
      rw [h0] at hc
      cases hc
      decide
    | cons b t =>
      have h5 : ('=' :: b :: t) = ['='] ++ (b :: t) := rfl
      rw [h5, lastChar_append _ _ (by simp)] at hc
      exact hvt c hc

theorem getBool_setline (m v : PyStr) (hm : m ≠ [])
    (hmh : ∀ c, m.head? = some c → isPySpace c = false)
    (hvt : ∀ c, lastChar v = some c → isPySpace c = false) :
    getBool m [m ++ '=' :: v] = pyReplace ['\"'] [] (pyReplace (m ++ ['=']) [] v) := by
  have hline : (m ++ '=' :: v) = (m ++ ['=']) ++ v := by simp
  have hstrip := pyStrip_setline m v hm hmh hvt
  have hss : startsWithB (m ++ ['=']) (pyStrip (m ++ '=' :: v)) = true := by
    rw [hstrip, hline]
    exact startsWithB_self _ _
  simp only [getBool, hss, if_true]
  rw [hstrip, hline, pyReplace_cancel _ _ (by simp)]

theorem getBool_tombstone_nil (m : PyStr) : getBool m [tombstone m] = [] := by
  have hs : startsWithB (m ++ ['=']) (pyStrip (tombstone m)) = false := by
    rw [pyStrip_tombstone]
    exact startsWithB_eqmark_tombstone m
  simp [getBool, hs]

theorem mem_filter_no_eqmark {m l : PyStr} {f : List PyStr}
    (h : l ∈ f.filter (fun l => !matchesRemoval m l)) :
    infixB (m ++ ['=']) l = false := by
  have h2 := (List.mem_filter.mp h).2
  rw [Bool.not_eq_true'] at h2
  unfold matchesRemoval at h2
  exact (Bool.or_eq_false_iff.mp h2).2

theorem getBool_no_match (m : PyStr) (f : List PyStr)
    (h : ∀ l ∈ f, startsWithB (m ++ ['=']) (pyStrip l) = false) : getBool m f = [] := by
  induction f with
  | nil => rfl
  | cons l f ih =>
    simp only [getBool, h l (List.mem_cons_self _ _)]
    simp only [Bool.false_eq_true, if_false]
    exact ih fun l hl => h l (List.mem_cons_of_mem _ hl)

theorem getChoice_no_match (m endm : PyStr) (f : List PyStr)
    (h : ∀ l ∈ f, (startsWithB m (pyStrip l) && endsWithB endm (pyStrip l)) = false) :
    getChoice m endm f = [] := by
  induction f with
  | nil => rfl
  | cons l f ih =>
    simp only [getChoice, h l (List.mem_cons_self _ _)]
    simp only [Bool.false_eq_true, if_false]
    exact ih fun l hl => h l (List.mem_cons_of_mem _ hl)

theorem getChoiceList_no_match (m endm : PyStr) (f : List PyStr)
    (h : ∀ l ∈ f, (startsWithB m (pyStrip l) && endsWithB endm (pyStrip l)) = false) :
    getChoiceList m endm f = [] := by
  induction f with
  | nil => rfl
  | cons l f ih =>
    simp only [getChoiceList, h l (List.mem_cons_self _ _)]
    simp only [Bool.false_eq_true, if_false]
    exact ih fun l hl => h l (List.mem_cons_of_mem _ hl)

theorem getAsterisk_no_match (m endm : PyStr) (f : List PyStr)
    (h : ∀ l ∈ f, (startsWithB m (pyStrip l) && infixB endm (pyStrip l)) = false) :
    getAsterisk m endm f = .ok [] := by
  induction f with
  | nil => rfl
  | cons l f ih =>
    simp only [getAsterisk, h l (List.mem_cons_self _ _)]
    simp only [Bool.false_eq_true, if_false]
    exact ih fun l hl => h l (List.mem_cons_of_mem _ hl)

/-! Structure of a successful run of the partition-slot loop. -/

theorem partLoop_spec (nameOf sizeOf : Nat → PyStr) :
    ∀ (fuel num : Nat) (po ps : PyStr) (ns : List PartNode),
      partLoop nameOf sizeOf num fuel po ps = .ok ns →
      ns.length ≤ fuel ∧
      (∀ i, ∀ h : i < ns.length,
        (ns.get ⟨i, h⟩).num = num + i ∧
        (ns.get ⟨i, h⟩).name = nameOf (num + i) ∧
        nameOf (num + i) ≠ [] ∧
        (ns.get ⟨i, h⟩).size = sizeOf (num + i)) ∧
      (∀ h : 0 < ns.length, add_offsets po ps = .ok ((ns.get ⟨0, h⟩).offset)) ∧
      (∀ i, ∀ h : i + 1 < ns.length,
        add_offsets ((ns.get ⟨i, Nat.lt_of_succ_lt h⟩).offset)
            ((ns.get ⟨i, Nat.lt_of_succ_lt h⟩).size)
          = .ok ((ns.get ⟨i + 1, h⟩).offset)) ∧
      (ns.length < fuel → nameOf (num + ns.length) = []) := by
  intro fuel
  induction fuel with
  | zero =>
    intro num po ps ns hok
    simp only [partLoop] at hok
    cases hok
    refine ⟨by simp, ?_, ?_, ?_, ?_⟩
    · intro i h
      exact absurd h (by simp)
    · intro h
      exact absurd h (by simp)
    · intro i h
      exact absurd h (by simp)
    · intro h
      exact absurd h (by simp)
  | succ fuel ih =>
    intro num po ps ns hok
    cases hoff : add_offsets po ps with
    | error e =>
      simp only [partLoop, hoff] at hok
      exact Except.noConfusion hok
    | ok off =>
      simp only [partLoop, hoff] at hok
      by_cases hname : nameOf num = []
      · rw [if_pos hname] at hok
        cases hok
        refine ⟨by simp, ?_, ?_, ?_, ?_⟩
        · intro i h
          exact absurd h (by simp)
        · intro h
          exact absurd h (by simp)
        · intro i h
          exact absurd h (by simp)
        · intro h
          simpa using hname
      · rw [if_neg hname] at hok
        cases hrec : partLoop nameOf sizeOf (num + 1) fuel off (sizeOf num) with
        | error e =>
          rw [hrec] at hok
          exact Except.noConfusion hok
        | ok rest =>
          rw [hrec] at hok
          cases hok
          obtain ⟨ihlen, ihidx, ihhead, ihchain, ihstop⟩ :=
            ih (num + 1) off (sizeOf num) rest hrec
          refine ⟨?_, ?_, ?_, ?_, ?_⟩
          · simpa using Nat.succ_le_succ ihlen
          · intro i h
            cases i with
            | zero =>
              exact ⟨by simp, by simp, by simpa using hname, by simp⟩
            | succ i =>
              have h' : i < rest.length := by
                simp only [List.length_cons] at h
                omega
              obtain ⟨e1, e2, e3, e4⟩ := ihidx i h'
              have harith : num + 1 + i = num + (i + 1) := by omega
              rw [← harith]
              exact ⟨e1, e2, e3, e4⟩
          · intro h
            rfl
          · intro i h
            cases i with
            | zero =>
              have h0 : 0 < rest.length := by
                simp only [List.length_cons] at h
                omega
              have hh := ihhead h0
              exact hh
            | succ i =>
              have h' : i + 1 < rest.length := by
                simp only [List.length_cons] at h
                omega
              have hc := ihchain i h'
              exact hc
          · intro h
            simp only [List.length_cons] at h
            have h2 : rest.length < fuel := by omega
            have h3 := ihstop h2
            have harith : num + 1 + rest.length = num + (rest.length + 1) := by omega
            simp only [List.length_cons]
            rw [← harith]
            exact h3

/-! Claim theorems. -/

/-- Claim C1, counterexample: with stored value `foo` (any value other
than `dts`), `is_hwflow_sdt` returns the stored value itself, not `xsa`
as the claim states. -/
theorem hwflow_xsa_counterexample :
    getBool (strLit "HDF_EXT") [strLit "HDF_EXT=foo"] = strLit "foo" ∧
    is_hwflow_sdt [strLit "HDF_EXT=foo"] ≠ strLit "xsa" := by decide

/-- Claim C1 as amended: `is_hwflow_sdt` returns `sdt` exactly when the
stored `HDF_EXT` value is `dts` or is already `sdt`; for any stored value
other than `dts` (including the empty string) it returns that stored
value unchanged — in particular it returns `xsa` only when the stored
value is itself `xsa`. -/
theorem hwflow_sdt_spec (metaFile : List PyStr) :
    (is_hwflow_sdt metaFile = strLit "sdt" ↔
      getBool (strLit "HDF_EXT") metaFile = strLit "dts" ∨
      getBool (strLit "HDF_EXT") metaFile = strLit "sdt") ∧
    (getBool (strLit "HDF_EXT") metaFile ≠ strLit "dts" →
      is_hwflow_sdt metaFile = getBool (strLit "HDF_EXT") metaFile) := by
  by_cases h : getBool (strLit "HDF_EXT") metaFile = strLit "dts"
  · simp [is_hwflow_sdt, h]
  · simp [is_hwflow_sdt, h]

/-- Witness for C1: a project whose metadata stores `HDF_EXT=xsa`
resolves to the `xsa` flow. -/
theorem hwflow_sdt_spec_witness :
    is_hwflow_sdt [strLit "HDF_EXT=xsa"] = strLit "xsa" := by
  have h := (hwflow_sdt_spec [strLit "HDF_EXT=xsa"]).2 (by decide)
  exact h.trans (by decide)

/-- Claim C2, counterexample: the claim says only surrounding double
quotes are stripped, but `get_config_value` removes every double quote:
storing the value `a"b` (which has no surrounding quotes) reads back as
`ab`. -/
theorem set_get_roundtrip_counterexample :
    get_config_value (strLit "FOO")
        (update_config_value (strLit "FOO") (strLit "a\"b") []) "bool" (strLit "=y")
      ≠ Except.ok (strLit "a\"b") ∧
    get_config_value (strLit "FOO")
        (update_config_value (strLit "FOO") (strLit "a\"b") []) "bool" (strLit "=y")
      = Except.ok (strLit "ab") := by decide

/-- Claim C2 as amended: for a nonempty macro with no leading whitespace
and a value other than `disable` with no trailing whitespace,
`update_config_value` followed by a `bool`-mode `get_config_value`
returns the value with every occurrence of `macro=` removed and then
every double quote removed (so exactly the value whenever the value
contains neither). -/
theorem set_get_roundtrip (m v : PyStr) (f : List PyStr)
    (hv : v ≠ strLit "disable") (hm : m ≠ [])
    (hmh : (m.head?.all fun c => !isPySpace c) = true)
    (hvt : ((lastChar v).all fun c => !isPySpace c) = true) :
    get_config_value m (update_config_value m v f) "bool" (strLit "=y")
      = Except.ok (pyReplace ['\"'] [] (pyReplace (m ++ ['=']) [] v)) := by
  have hmh2 : ∀ c, m.head? = some c → isPySpace c = false := by
    intro c hc
    rw [hc] at hmh
    simpa using hmh
  have hvt2 : ∀ c, lastChar v = some c → isPySpace c = false := by
    intro c hc
    rw [hc] at hvt
    simpa using hvt
  have hg : get_config_value m (update_config_value m v f) "bool" (strLit "=y")
      = Except.ok (getBool m (update_config_value m v f)) := rfl
  have hset : setLine m v = m ++ '=' :: v := if_neg hv
  rw [hg, update_filter_form, hset]
  rw [getBool_append_skip m _ _ (fun l hl => mem_filter_no_eqmark hl)]
  rw [getBool_setline m v hm hmh2 hvt2]

/-- Witness for C2: a plain macro/value pair round-trips exactly. -/
theorem set_get_roundtrip_witness :
    get_config_value (strLit "FOO")
        (update_config_value (strLit "FOO") (strLit "bar") [strLit "FOO=old"])
        "bool" (strLit "=y")
      = Except.ok (strLit "bar") := by
  have h := set_get_roundtrip (strLit "FOO") (strLit "bar") [strLit "FOO=old"]
    (by decide) (by decide) (by decide) (by decide)
  exact h.trans (by decide)

/-- Claim C3 (confirmed): `update_config_value` keeps, in order, exactly
the lines that contain neither `# macro is not set` nor `macro=` as a
substring, and appends the single new line (`# macro is not set` when the
value is `disable`, else `macro=value`) at end of file. -/
theorem update_config_frame (m v : PyStr) (f : List PyStr) :
    update_config_value m v f
      = f.filter (fun l => !(infixB (tombstone m) l || infixB (m ++ ['=']) l))
        ++ [if v = strLit "disable" then tombstone m else m ++ '=' :: v] :=
  update_filter_form m v f

/-- Claim C4 (code bug): on a version mismatch with the override unset
and the user answering an accepted yes-form, the source executes
`update_config_value(plnx_vars.PetaLinux_Ver_Str, petalinux_ver, metadata_file)`
(plnx_utils.py lines 108-109) where `petalinux_ver` and `metadata_file`
are undefined names, so Python raises `NameError` instead of recording
the version and returning True.  The other branches do behave as the
claim states: override set returns True without touching the file; no
stored version records the current version and returns True. -/
theorem version_check_yes_crash :
    petalinux_version_check (strLit "PETALINUX_VER") (strLit "2023.2") []
        (strLit "y") [strLit "PETALINUX_VER=2022.1"] = Except.error () ∧
    petalinux_version_check (strLit "PETALINUX_VER") (strLit "2023.2") (strLit "1")
        (strLit "y") [strLit "PETALINUX_VER=2022.1"]
      = Except.ok (true, [strLit "PETALINUX_VER=2022.1"]) ∧
    petalinux_version_check (strLit "PETALINUX_VER") (strLit "2023.2") []
        (strLit "y") []
      = Except.ok (true, [strLit "PETALINUX_VER=2023.2"]) := by decide

/-- Claim C5 (confirmed): a second `update_config_value` with the same
macro and value leaves the file unchanged, and the file then contains
exactly one line matching the macro (no duplicates accumulate). -/
theorem update_config_idempotent (m v : PyStr) (f : List PyStr) :
    update_config_value m v (update_config_value m v f) = update_config_value m v f ∧
    (update_config_value m v (update_config_value m v f)).countP (matchesRemoval m)
      = 1 := by
  have h1 : update_config_value m v (update_config_value m v f)
      = update_config_value m v f := by
    rw [update_filter_form m v f, update_filter_form m v _, List.filter_append,
      List.filter_filter]
    have h2 : List.filter (fun l => !matchesRemoval m l) [setLine m v] = [] := by
      simp [matchesRemoval_setLine]
    rw [h2]
    simp [Bool.and_self]
  refine ⟨h1, ?_⟩
  rw [h1, update_filter_form]
  rw [List.countP_append]
  have h3 : (f.filter (fun l => !matchesRemoval m l)).countP (matchesRemoval m) = 0 := by
    rw [List.countP_eq_zero]
    intro l hl
    have h4 := (List.mem_filter.mp hl).2
    rw [Bool.not_eq_true'] at h4
    simp [h4]
  rw [h3]
  simp [List.countP_cons, matchesRemoval_setLine]

/-- Claim C6 (confirmed): after `update_config_value(macro, "disable",
file)`, a `bool`-mode `get_config_value` returns the empty string, the
file contains the `# macro is not set` tombstone line, and no line of the
file contains `macro=`. -/
theorem update_disable_spec (m : PyStr) (f : List PyStr) :
    get_config_value m (update_config_value m (strLit "disable") f) "bool"
        (strLit "=y") = Except.ok [] ∧
    tombstone m ∈ update_config_value m (strLit "disable") f ∧
    (∀ l ∈ update_config_value m (strLit "disable") f,
      infixB (m ++ ['=']) l = false) := by
  have hset : setLine m (strLit "disable") = tombstone m := if_pos rfl
  have hu := update_filter_form m (strLit "disable") f
  refine ⟨?_, ?_, ?_⟩
  · have hg : get_config_value m (update_config_value m (strLit "disable") f) "bool"
        (strLit "=y")
        = Except.ok (getBool m (update_config_value m (strLit "disable") f)) := rfl
    rw [hg, hu, hset]
    rw [getBool_append_skip m _ _ (fun l hl => mem_filter_no_eqmark hl)]
    rw [getBool_tombstone_nil]
  · rw [hu, hset]
    exact List.mem_append_right _ (List.mem_singleton.mpr rfl)
  · intro l hl
    rw [hu, hset] at hl
    rcases List.mem_append.mp hl with h | h
    · exact mem_filter_no_eqmark h
    · rw [List.mem_singleton.mp h]
      exact infixB_eqmark_tombstone m

/-- Witness for C6 at a concrete macro and file. -/
theorem update_disable_spec_witness :
    get_config_value (strLit "BAR")
        (update_config_value (strLit "BAR") (strLit "disable") [strLit "BAR=y"])
        "bool" (strLit "=y") = Except.ok [] :=
  (update_disable_spec (strLit "BAR") [strLit "BAR=y"]).1

/-- Claim C7 (confirmed): whenever no line of the file matches the macro
under the given lookup mode — in particular for an absent or empty file,
modelled as `[]` — `get_config_value` returns the empty string and raises
no error.  The model is a pure read: it cannot create the file. -/
theorem get_config_no_match (m endm : PyStr) (ty : String) (f : List PyStr)
    (h : ∀ l ∈ f, modeMatches ty m endm l = false) :
    get_config_value m f ty endm = Except.ok [] := by
  by_cases hb : ty = "bool"
  · subst hb
    exact congrArg Except.ok (getBool_no_match m f (fun l hl => h l hl))
  · by_cases hch : ty = "choice"
    · subst hch
      exact congrArg Except.ok (getChoice_no_match m endm f (fun l hl => h l hl))
    · by_cases hcl : ty = "choicelist"
      · subst hcl
        exact congrArg Except.ok (getChoiceList_no_match m endm f (fun l hl => h l hl))
      · by_cases ha : ty = "asterisk"
        · subst ha
          exact getAsterisk_no_match m endm f (fun l hl => h l hl)
        · simp only [get_config_value, if_neg hb, if_neg hch, if_neg hcl, if_neg ha]

/-- Witness for C7: a file with only unrelated content reads as unset. -/
theorem get_config_no_match_witness :
    get_config_value (strLit "QUX") [strLit "BAZ=1"] "bool" (strLit "=y")
      = Except.ok [] :=
  get_config_no_match (strLit "QUX") (strLit "=y") "bool" [strLit "BAZ=1"] (by decide)

/-- Claim C8, counterexample: `versal-net` is also returned when the base
architecture macro itself resolves to `versal-net` (so the claimed "if
and only if" fails: the right-hand side requires the base to resolve to
`versal`). -/
theorem xilinx_arch_counterexample :
    get_xilinx_arch (strLit "ARCH_") (strLit "SOC_") [strLit "ARCH_versal-net=y"]
      = strLit "versal-net" ∧
    pyLower (getChoice (strLit "ARCH_") (strLit "=y") [strLit "ARCH_versal-net=y"])
      ≠ strLit "versal" := by decide

/-- Claim C8 as amended: `get_xilinx_arch` returns `versal-net` iff
either the base architecture resolves (lower-cased) to `versal` and the
SoC variant resolves to `versalnet`, or the base architecture itself
resolves to `versal-net`; and when the base resolves to `versal` with any
other variant it returns `versal`. -/
theorem xilinx_arch_spec (archMacro socMacro : PyStr) (conf : List PyStr) :
    (get_xilinx_arch archMacro socMacro conf = strLit "versal-net" ↔
      (pyLower (getChoice archMacro (strLit "=y") conf) = strLit "versal" ∧
        get_soc_variant socMacro conf = strLit "versalnet") ∨
      pyLower (getChoice archMacro (strLit "=y") conf) = strLit "versal-net") ∧
    (pyLower (getChoice archMacro (strLit "=y") conf) = strLit "versal" →
      get_soc_variant socMacro conf ≠ strLit "versalnet" →
      get_xilinx_arch archMacro socMacro conf = strLit "versal") := by
  by_cases hb : pyLower (getChoice archMacro (strLit "=y") conf) = strLit "versal"
  · by_cases hs : get_soc_variant socMacro conf = strLit "versalnet"
    · simp +decide [get_xilinx_arch, hb, hs]
    · simp +decide [get_xilinx_arch, hb, hs]
  · simp +decide [get_xilinx_arch, hb]

/-- Witness for C8: base `versal` with no configured variant yields
`versal`. -/
theorem xilinx_arch_spec_witness :
    get_xilinx_arch (strLit "ARCH_") (strLit "SOC_") [strLit "ARCH_versal=y"]
      = strLit "versal" :=
  (xilinx_arch_spec (strLit "ARCH_") (strLit "SOC_") [strLit "ARCH_versal=y"]).2
    (by decide) (by decide)

/-- Claim C9 (confirmed): whenever the flash section is generated without
error for a configured flash device, it consists of the header, one node
per configured slot, and the closing fragment; the nodes carry slot
numbers 0, 1, 2, ... (at most 19 of them), slot 0 starts at offset `0x0`,
each following slot's offset is `add_offsets` of the previous slot's
offset and size, every emitted slot has a nonempty name macro, and the
loop stopped at the first slot whose name macro resolves to empty. -/
theorem flash_partition_layout (fm pfx nsfx ssfx : PyStr) (conf : List PyStr)
    (outs : List FlashOut)
    (hip : getBool fm conf ≠ [])
    (hok : gen_flash_section fm pfx nsfx ssfx conf = Except.ok outs) :
    ∃ ns : List PartNode,
      outs = FlashOut.header (getBool fm conf) :: ns.map FlashOut.node
          ++ [FlashOut.endSym] ∧
      ns.length ≤ 19 ∧
      (∀ i, ∀ h : i < ns.length,
        (ns.get ⟨i, h⟩).num = i ∧
        (ns.get ⟨i, h⟩).name = getBool (partMacro pfx i nsfx) conf ∧
        (ns.get ⟨i, h⟩).name ≠ [] ∧
        (ns.get ⟨i, h⟩).size = getBool (partMacro pfx i ssfx) conf) ∧
      (∀ h : 0 < ns.length, (ns.get ⟨0, h⟩).offset = strLit "0x0") ∧
      (∀ i, ∀ h : i + 1 < ns.length,
        add_offsets ((ns.get ⟨i, Nat.lt_of_succ_lt h⟩).offset)
            ((ns.get ⟨i, Nat.lt_of_succ_lt h⟩).size)
          = Except.ok ((ns.get ⟨i + 1, h⟩).offset)) ∧
      (ns.length < 19 → getBool (partMacro pfx ns.length nsfx) conf = []) := by
  simp only [gen_flash_section] at hok
  rw [if_neg hip] at hok
  cases hpl : partLoop (fun n => getBool (partMacro pfx n nsfx) conf)
      (fun n => getBool (partMacro pfx n ssfx) conf) 0 19
      (strLit "0x0") (strLit "0x0") with
  | error e =>
    rw [hpl] at hok
    exact Except.noConfusion hok
  | ok ns =>
    rw [hpl] at hok
    have hok2 : Except.ok (FlashOut.header (getBool fm conf) :: ns.map FlashOut.node
        ++ [FlashOut.endSym]) = Except.ok outs := hok
    injection hok2 with houts
    obtain ⟨hlen, hidx, hhead, hchain, hstop⟩ :=
      partLoop_spec _ _ 19 0 (strLit "0x0") (strLit "0x0") ns hpl
    refine ⟨ns, houts.symm, hlen, ?_, ?_, hchain, ?_⟩
    · intro i h
      obtain ⟨e1, e2, e3, e4⟩ := hidx i h
      refine ⟨by simpa using e1, by simpa using e2, ?_, by simpa using e4⟩
      rw [e2]
      exact e3
    · intro h
      have h0 := hhead h
      have hoff0 : add_offsets (strLit "0x0") (strLit "0x0")
          = Except.ok (strLit "0x0") := by decide
      rw [hoff0] at h0
      injection h0 with h0e
      exact h0e.symm
    · intro h
      have h5 := hstop h
      simpa using h5

/-- Witness for C9: the concrete configuration `conf9` (sizes `0x1000`,
`0x2000`, `0x100`) generates exactly `outs9`, whose partition 2 starts at
offset `0x3000`, and the layout theorem applies to it. -/
theorem flash_partition_layout_witness :
    gen_flash_section (strLit "FLASH") (strLit "P") (strLit "NAME") (strLit "SIZE")
        conf9 = Except.ok outs9 ∧
    ∃ ns : List PartNode,
      outs9 = FlashOut.header (getBool (strLit "FLASH") conf9) :: ns.map FlashOut.node
          ++ [FlashOut.endSym] ∧ ns.length ≤ 19 := by
  constructor
  · decide
  · obtain ⟨ns, h1, h2, _⟩ := flash_partition_layout (strLit "FLASH") (strLit "P")
      (strLit "NAME") (strLit "SIZE") conf9 outs9 (by decide) (by decide)
    exact ⟨ns, h1, h2⟩

/-- Claim C10 (confirmed): any `Type` argument other than the four
recognized modes makes `get_config_value` return the empty string without
error, even when the file has lines that would match in a recognized
mode. -/
theorem get_config_unknown_mode (m endm : PyStr) (f : List PyStr) (ty : String)
    (h1 : ty ≠ "bool") (h2 : ty ≠ "choice") (h3 : ty ≠ "choicelist")
    (h4 : ty ≠ "asterisk") :
    get_config_value m f ty endm = Except.ok [] := by
  simp only [get_config_value, if_neg h1, if_neg h2, if_neg h3, if_neg h4]

/-- Witness for C10: mode `list` on a file whose line would match in
`bool` mode still reads as unset. -/
theorem get_config_unknown_mode_witness :
    get_config_value (strLit "FOO") [strLit "FOO=1"] "list" (strLit "=y")
      = Except.ok [] :=
  get_config_unknown_mode (strLit "FOO") (strLit "=y") [strLit "FOO=1"] "list"
    (by decide) (by decide) (by decide) (by decide)
